import Mathlib

/-!
Verification of the LeetCode submission-aggregator endpoint.

The repository is a single serverless HTTP handler that, given a username,
fetches the user's recent submissions and (best effort) the full accepted
history from two upstream sources, deduplicates slugs, and returns either a
legacy bare array or a richer v2 object.  The embedding below follows the
handler variant that implements both the legacy and the v2 response modes
(the two source files differ only in that the older one lacks the legacy
mode and the text-based JSON parsing of the GraphQL helper).

Upstream I/O is modelled by passing the outcome of each network call as an
explicit argument (an `Except` value or a page-indexed function); all the
logic the repository itself implements — trimming, deduplication, the
pagination loops, the fallback chain, the response shapes — is translated
directly from the source.
-/

namespace LCAssistant

/-! ## Model of JavaScript string trimming -/

/-- Character-level trim: drop leading and trailing whitespace. -/
def trimChars (l : List Char) : List Char :=
  ((l.dropWhile Char.isWhitespace).reverse.dropWhile Char.isWhitespace).reverse

/-- Model of JavaScript `String.prototype.trim()`: remove whitespace from
both ends of the string. -/
def jsTrim (s : String) : String :=
  String.mk (trimChars s.data)

theorem dropWhile_idem {α : Type} (p : α → Bool) (l : List α) :
    (l.dropWhile p).dropWhile p = l.dropWhile p := by
  induction l with
  | nil => rfl
  | cons a t ih =>
    by_cases h : p a
    · simp [List.dropWhile_cons, h, ih]
    · simp [List.dropWhile_cons, h]

theorem length_dropWhile_le {α : Type} (p : α → Bool) (l : List α) :
    (l.dropWhile p).length ≤ l.length := by
  induction l with
  | nil => simp
  | cons a t ih =>
    by_cases h : p a
    · simp only [List.dropWhile_cons, h, if_true]
      exact Nat.le_trans ih (Nat.le_succ _)
    · simp [List.dropWhile_cons, h]

theorem dropWhile_prefix_self {α : Type} (p : α → Bool) {m l : List α}
    (hpre : m <+: l) (hl : l.dropWhile p = l) : m.dropWhile p = m := by
  cases m with
  | nil => rfl
  | cons a t =>
    obtain ⟨r, hr⟩ := hpre
    subst hr
    rw [List.cons_append] at hl
    by_cases h : p a
    · exfalso
      rw [List.dropWhile_cons, if_pos h] at hl
      have := length_dropWhile_le p (t ++ r)
      rw [hl] at this
      simp at this
    · simp [List.dropWhile_cons, h]

theorem trimChars_front (l : List Char) :
    trimChars l <+: l.dropWhile Char.isWhitespace := by
  unfold trimChars
  rw [← List.reverse_suffix]
  simp only [List.reverse_reverse]
  exact List.dropWhile_suffix _

theorem trimChars_idem (l : List Char) : trimChars (trimChars l) = trimChars l := by
  have h1 : (trimChars l).dropWhile Char.isWhitespace = trimChars l :=
    dropWhile_prefix_self _ (trimChars_front l) (dropWhile_idem _ _)
  have hrev : (trimChars l).reverse =
      (l.dropWhile Char.isWhitespace).reverse.dropWhile Char.isWhitespace := by
    unfold trimChars
    rw [List.reverse_reverse]
  have h2 : (trimChars l).reverse.dropWhile Char.isWhitespace = (trimChars l).reverse := by
    rw [hrev, dropWhile_idem]
  show ((((trimChars l).dropWhile Char.isWhitespace).reverse).dropWhile
      Char.isWhitespace).reverse = trimChars l
  rw [h1, h2, List.reverse_reverse]

theorem jsTrim_idem (s : String) : jsTrim (jsTrim s) = jsTrim s := by
  show String.mk (trimChars (trimChars s.data)) = String.mk (trimChars s.data)
  rw [trimChars_idem]

/-! ## Data model

Strings model JavaScript strings; a missing or falsy string field is
modelled by `""` (exactly the values the source's truthiness checks treat
alike), and a missing object or array field by `Option`/`[]`. -/

/-- One entry of the upstream recent-submission list. -/
structure RecentItem where
  title : String
  titleSlug : String
  timestamp : Int
deriving DecidableEq

/-- One normalized entry of `recentSolved` as built by the handler. -/
structure Submission where
  title : String
  titleSlug : String
  timestamp : Int
deriving DecidableEq

/-- One entry of a paginated GraphQL `submissionList` page. -/
structure GqlSubmission where
  titleSlug : String
  statusDisplay : String
deriving DecidableEq

/-- One GraphQL `submissionList` page: `hasNext` flag plus submissions. -/
structure SubmissionPage where
  hasNext : Bool
  submissions : List GqlSubmission
deriving DecidableEq

/-- One entry of the public REST API `submissions_dump` array.  A non-string
`title_slug` is modelled by `""`; `status_display` falls back to
`statusDisplay` exactly as in the source. -/
structure PublicSubmission where
  title_slug : String
  status_display : String
  statusDisplay : String
deriving DecidableEq

/-- One page of the public REST API. -/
structure PublicPage where
  submissions_dump : List PublicSubmission
  has_next : Bool
deriving DecidableEq

/-- Outcome of one `fetch` against the public REST API: the `ok` flag and
numeric status of the response, and the result of `response.json()`
(`Except.error` models a rejected JSON parse, `none` a null body). -/
structure PublicResponse where
  ok : Bool
  status : Nat
  json : Except String (Option PublicPage)

/-! ## JS `Set` and `Map` primitives (insertion-ordered) -/

/-- JS `Set.prototype.add`: append unless already present. -/
def setAdd (acc : List String) (s : String) : List String :=
  if s ∈ acc then acc else acc ++ [s]

/-- `Array.from(new Set(l))`: the insertion-ordered deduplication of `l`. -/
def jsSetOf (l : List String) : List String :=
  l.foldl setAdd []

/-- JS `Map.prototype.get` on an insertion-ordered association list. -/
def mapGet (m : List (String × Submission)) (k : String) : Option Submission :=
  (m.find? (fun p => p.1 = k)).map Prod.snd

/-- JS `Map.prototype.set`: update in place if the key is present
(preserving its position), otherwise append. -/
def mapUpsert (m : List (String × Submission)) (k : String) (v : Submission) :
    List (String × Submission) :=
  if m.any (fun p => p.1 = k) then m.map (fun p => if p.1 = k then (k, v) else p)
  else m ++ [(k, v)]

/-! ## `dedupeSlugs` -/

/-- `dedupeSlugs`: trim every entry, drop the empty survivors, deduplicate
with an insertion-ordered set.  (`String(slug || '')` is the identity on the
string inputs this model covers.) -/
def dedupeSlugs (slugs : List String) : List String :=
  jsSetOf ((slugs.map jsTrim).filter (fun s => s ≠ ""))

/-! ## `fetchRecentSubmissions` (pure part)

The GraphQL transport is shared with the other fetchers; this definition is
the body applied to the (possibly empty) `recentSubmissionList` array the
request produced. -/

/-- The `Submission` stored for an upstream item: the trimmed slug, the
title defaulted to the slug when falsy, and the numeric timestamp. -/
def mkRecentSub (item : RecentItem) : Submission :=
  ⟨if item.title = "" then jsTrim item.titleSlug else item.title,
    jsTrim item.titleSlug, item.timestamp⟩

/-- One iteration of the dedup-by-slug loop: skip items with a falsy or
whitespace-only `titleSlug`; otherwise keep the entry with the strictly
larger timestamp. -/
def recentStep (m : List (String × Submission)) (item : RecentItem) :
    List (String × Submission) :=
  if item.titleSlug = "" then m
  else if jsTrim item.titleSlug = "" then m
  else
    match mapGet m (jsTrim item.titleSlug) with
    | none => mapUpsert m (jsTrim item.titleSlug) (mkRecentSub item)
    | some existing =>
        if existing.timestamp < item.timestamp then
          mapUpsert m (jsTrim item.titleSlug) (mkRecentSub item)
        else m

/-- The descending-timestamp order used by the final `sort` comparator. -/
def tsGE (a b : Submission) : Prop :=
  b.timestamp ≤ a.timestamp

instance : DecidableRel tsGE :=
  fun a b => inferInstanceAs (Decidable (b.timestamp ≤ a.timestamp))

instance : IsTotal Submission tsGE :=
  ⟨fun a b => le_total b.timestamp a.timestamp⟩

instance : IsTrans Submission tsGE :=
  ⟨fun _ _ _ hab hbc => le_trans hbc hab⟩

/-- `fetchRecentSubmissions`: deduplicate the upstream list by trimmed slug
keeping the highest timestamp, then sort descending by timestamp.  JS
`Array.prototype.sort` is stable, as is `List.insertionSort`. -/
def fetchRecentSubmissions (list : List RecentItem) : List Submission :=
  List.insertionSort tsGE ((list.foldl recentStep []).map Prod.snd)

/-! ## Full-history fetchers -/

/-- `pageSize` constant shared by both pagination loops. -/
def pageSize : Nat := 20

/-- `maxPages` constant shared by both pagination loops. -/
def maxPages : Nat := 500

/-- The `forEach` body of the GraphQL pagination loop: add the trimmed slug
of every submission whose raw slug is truthy and whose `statusDisplay` is
exactly `"Accepted"`. -/
def gqlPageStep (acc : List String) (subs : List GqlSubmission) : List String :=
  subs.foldl
    (fun a s =>
      if s.titleSlug = "" then a
      else if s.statusDisplay ≠ "Accepted" then a
      else setAdd a (jsTrim s.titleSlug))
    acc

/-- The GraphQL pagination loop.  `upstream offset limit` is the value of
`graphqlRequest` for that page projected at `data?.submissionList` (`none`
models a missing field, `Except.error` a thrown request).  The `Nat` fuel is
the remaining iterations of `for (page = 0; page < maxPages; page += 1)`. -/
def gqlGo (upstream : Nat → Nat → Except String (Option SubmissionPage)) :
    Nat → Nat → List String → Except String (List String)
  | 0, _, acc => .ok acc
  | fuel + 1, offset, acc =>
    match upstream offset pageSize with
    | .error e => .error e
    | .ok d =>
      let subs := match d with | some p => p.submissions | none => []
      let acc' := gqlPageStep acc subs
      let hasNext := match d with | some p => p.hasNext | none => false
      if hasNext = false ∨ subs = [] then .ok acc'
      else gqlGo upstream fuel (offset + pageSize) acc'

/-- `fetchAllAcceptedSlugsFromGraphQL`: run the loop from offset 0 and
return `Array.from(accepted).filter(Boolean)`. -/
def fetchAllAcceptedSlugsFromGraphQL
    (upstream : Nat → Nat → Except String (Option SubmissionPage)) :
    Except String (List String) :=
  (gqlGo upstream maxPages 0 []).map (fun l => l.filter (fun s => s ≠ ""))

/-- The `forEach` body of the public REST pagination loop: trim first, skip
empty slugs, then require `status_display || statusDisplay` to be exactly
`"Accepted"`. -/
def pubPageStep (acc : List String) (subs : List PublicSubmission) : List String :=
  subs.foldl
    (fun a s =>
      if jsTrim s.title_slug = "" then a
      else if (if s.status_display = "" then s.statusDisplay else s.status_display) ≠
          "Accepted" then a
      else setAdd a (jsTrim s.title_slug))
    acc

/-- The public REST pagination loop: a non-`ok` response throws, then the
parsed JSON body is consumed like the GraphQL page. -/
def pubGo (upstream : Nat → Nat → PublicResponse) :
    Nat → Nat → List String → Except String (List String)
  | 0, _, acc => .ok acc
  | fuel + 1, offset, acc =>
    let resp := upstream offset pageSize
    if resp.ok = false then
      .error ("Public submissions API failed (" ++ toString resp.status ++ ")")
    else
      match resp.json with
      | .error e => .error e
      | .ok d =>
        let subs := match d with | some p => p.submissions_dump | none => []
        let acc' := pubPageStep acc subs
        let hasNext := match d with | some p => p.has_next | none => false
        if hasNext = false ∨ subs = [] then .ok acc'
        else pubGo upstream fuel (offset + pageSize) acc'

/-- `fetchAllAcceptedSlugsFromPublicApi`: run the loop from offset 0 and
return `Array.from(accepted)`. -/
def fetchAllAcceptedSlugsFromPublicApi (upstream : Nat → Nat → PublicResponse) :
    Except String (List String) :=
  pubGo upstream maxPages 0 []

/-! ## `graphqlRequest` -/

/-- One entry of a GraphQL `errors` array; a falsy `message` is `""`. -/
structure GqlError where
  message : String
deriving DecidableEq

/-- The JSON body of a GraphQL response, generic in the shape of `data`.
`errors = none` models an absent or non-array `errors` field; `data = none`
models an absent or falsy `data` field. -/
structure GqlBody (α : Type) where
  errors : Option (List GqlError)
  data : Option α

/-- The transport-level outcome of the `fetch` to the GraphQL endpoint:
`ok` flag, numeric status, and the raw response text. -/
structure RawResponse where
  ok : Bool
  status : Nat
  raw : String
deriving DecidableEq

/-- `graphqlRequest`: parse the raw text (an empty body becomes `{}`, a
failed parse throws), then fail on a non-`ok` status, then fail on a
non-empty `errors` array, otherwise return `json?.data || {}`.  `parse`
models `JSON.parse` restricted to this response shape (`none` = the string
is not valid JSON). -/
def graphqlRequest {α : Type} (parse : String → Option (GqlBody α))
    (resp : RawResponse) : Except String (Option α) :=
  let parsed : Except String (GqlBody α) :=
    if resp.raw = "" then .ok ⟨none, none⟩
    else
      match parse resp.raw with
      | some j => .ok j
      | none =>
          .error ("LeetCode GraphQL returned non-JSON response (" ++
            toString resp.status ++ ")")
  match parsed with
  | .error e => .error e
  | .ok j =>
    if resp.ok = false then
      .error ("LeetCode GraphQL request failed (" ++ toString resp.status ++ ")")
    else
      match j.errors with
      | some (e :: _) =>
          .error (if e.message = "" then "LeetCode GraphQL returned errors" else e.message)
      | _ => .ok j.data

/-- The JSON body effectively used by `graphqlRequest`: an empty raw body is
read as the empty object, any other body goes through `JSON.parse`. -/
def effJson {α : Type} (parse : String → Option (GqlBody α)) (resp : RawResponse) :
    Option (GqlBody α) :=
  if resp.raw = "" then some ⟨none, none⟩ else parse resp.raw

/-! ## The HTTP handler -/

/-- The fields of the request body the handler destructures.  `none` models
an absent field. -/
structure RequestBody where
  username : Option String
  responseFormat : Option String
  includeFullHistory : Option Bool
deriving DecidableEq

/-- An incoming HTTP request: method plus optional JSON body. -/
structure Request where
  method : String
  body : Option RequestBody
deriving DecidableEq

/-- The response bodies the handler can produce.  `v2Object` carries the
`counts` object flattened into its two fields. -/
inductive ResponseBody where
  | empty : ResponseBody
  | errorObj (error : String) (details : Option String) : ResponseBody
  | legacyArray (items : List Submission) : ResponseBody
  | v2Object (source : String) (recentSolved : List Submission)
      (allSolvedSlugs : List String)
      (countsRecentSolved : Nat) (countsAllSolved : Nat) : ResponseBody
deriving DecidableEq

/-- An HTTP response: status code and JSON body. -/
structure Response where
  status : Nat
  body : ResponseBody
deriving DecidableEq

/-- The condition `responseFormat === 'v2' || includeFullHistory === true`. -/
def wantsV2 (b : RequestBody) : Prop :=
  b.responseFormat = some "v2" ∨ b.includeFullHistory = some true

instance : DecidablePred wantsV2 := fun b =>
  inferInstanceAs
    (Decidable (b.responseFormat = some "v2" ∨ b.includeFullHistory = some true))

/-- The caught result of an optional full-history fetch: a thrown error is
logged and replaced by the empty list. -/
def caughtList (r : Except String (List String)) : List String :=
  match r with
  | .ok l => l
  | .error _ => []

/-- The fallback chain of the v2 branch: the GraphQL full history if it
succeeded and is non-empty, else the public-API full history if it
succeeded and is non-empty, else the deduplicated slugs of `recentSolved`;
paired with the resulting `source` tag ("recent" unless a full history was
used). -/
def fallbackSlugs (recentSolved : List Submission)
    (gqlResult pubResult : Except String (List String)) : String × List String :=
  if caughtList gqlResult ≠ [] then ("full", caughtList gqlResult)
  else if caughtList pubResult ≠ [] then ("full", caughtList pubResult)
  else ("recent", dedupeSlugs (recentSolved.map (fun s => s.titleSlug)))

/-- The HTTP handler.  The outcomes of the three upstream fetches are passed
as explicit arguments: `recentResult` is `fetchRecentSubmissions`, whose
failure is the only one surfaced (as a 500); `gqlResult` and `pubResult`
are the two optional full-history fetches consumed by `fallbackSlugs`. -/
def handler (req : Request) (recentResult : Except String (List Submission))
    (gqlResult pubResult : Except String (List String)) : Response :=
  if req.method = "OPTIONS" then ⟨200, .empty⟩
  else if req.method ≠ "POST" then ⟨405, .errorObj "Only POST allowed" none⟩
  else
    let b := req.body.getD ⟨none, none, none⟩
    match b.username with
    | none => ⟨400, .errorObj "Username is required" none⟩
    | some u =>
      if jsTrim u = "" then ⟨400, .errorObj "Username is required" none⟩
      else
        match recentResult with
        | .error e => ⟨500, .errorObj "Server error" (some e)⟩
        | .ok recentSolved =>
          if wantsV2 b then
            let sa := fallbackSlugs recentSolved gqlResult pubResult
            ⟨200, .v2Object sa.1 recentSolved sa.2 recentSolved.length sa.2.length⟩
          else ⟨200, .legacyArray recentSolved⟩

/-! ## Set-accumulator lemmas -/

theorem mem_setAdd {acc : List String} {s x : String} :
    x ∈ setAdd acc s ↔ x ∈ acc ∨ x = s := by
  by_cases h : s ∈ acc
  · simp only [setAdd, if_pos h]
    constructor
    · exact Or.inl
    · rintro (hx | rfl)
      · exact hx
      · exact h
  · simp [setAdd, if_neg h, List.mem_append]

theorem nodup_setAdd {acc : List String} (s : String) (h : acc.Nodup) :
    (setAdd acc s).Nodup := by
  by_cases hs : s ∈ acc
  · simpa [setAdd, if_pos hs] using h
  · simp [setAdd, if_neg hs, List.nodup_append, h, hs]

theorem mem_foldl_setAdd (l : List String) :
    ∀ (acc : List String) (x : String), x ∈ l.foldl setAdd acc ↔ x ∈ acc ∨ x ∈ l := by
  induction l with
  | nil => simp
  | cons a t ih =>
    intro acc x
    rw [List.foldl_cons, ih, mem_setAdd]
    simp only [List.mem_cons]
    tauto

theorem nodup_foldl_setAdd (l : List String) :
    ∀ acc : List String, acc.Nodup → (l.foldl setAdd acc).Nodup := by
  induction l with
  | nil => intro acc h; simpa using h
  | cons a t ih =>
    intro acc h
    exact ih _ (nodup_setAdd a h)

theorem mem_jsSetOf {l : List String} {x : String} : x ∈ jsSetOf l ↔ x ∈ l := by
  unfold jsSetOf
  rw [mem_foldl_setAdd]
  simp

theorem nodup_jsSetOf (l : List String) : (jsSetOf l).Nodup :=
  nodup_foldl_setAdd l [] List.nodup_nil

/-! ## `dedupeSlugs` lemmas -/

theorem mem_dedupeSlugs {l : List String} {x : String} :
    x ∈ dedupeSlugs l ↔ x ∈ (l.map jsTrim).filter (fun s => s ≠ "") :=
  mem_jsSetOf

theorem nodup_dedupeSlugs (l : List String) : (dedupeSlugs l).Nodup :=
  nodup_jsSetOf _

theorem dedupeSlugs_mem_props {l : List String} {x : String}
    (hx : x ∈ dedupeSlugs l) : x ≠ "" ∧ jsTrim x = x := by
  rw [mem_dedupeSlugs, List.mem_filter] at hx
  obtain ⟨hmem, hne⟩ := hx
  obtain ⟨y, _, rfl⟩ := List.mem_map.mp hmem
  refine ⟨by simpa using hne, jsTrim_idem y⟩

/-- C9: `dedupeSlugs` has order-insensitive, idempotent set semantics: its
output, viewed as a set, is the set of trimmed non-empty entries of the
input; permuted inputs give the same set; re-applying it changes nothing. -/
theorem claim_C9_dedupe_set_semantics :
    (∀ (l : List String) (x : String),
      x ∈ dedupeSlugs l ↔ x ∈ (l.map jsTrim).filter (fun s => s ≠ ""))
    ∧ (∀ l₁ l₂ : List String, l₁.Perm l₂ →
        ∀ x, x ∈ dedupeSlugs l₁ ↔ x ∈ dedupeSlugs l₂)
    ∧ (∀ (l : List String) (x : String),
        x ∈ dedupeSlugs (dedupeSlugs l) ↔ x ∈ dedupeSlugs l) := by
  refine ⟨fun l x => mem_dedupeSlugs, fun l₁ l₂ hperm x => ?_, fun l x => ?_⟩
  · rw [mem_dedupeSlugs, mem_dedupeSlugs]
    exact ((hperm.map jsTrim).filter _).mem_iff
  · rw [mem_dedupeSlugs]
    have hmap : (dedupeSlugs l).map jsTrim = dedupeSlugs l :=
      List.map_congr_left (fun y hy => (dedupeSlugs_mem_props hy).2) |>.trans
        (List.map_id _)
    rw [hmap, List.filter_eq_self.mpr]
    intro y hy
    simpa using (dedupeSlugs_mem_props hy).1

/-- Witness for C9 at a concrete permuted pair of inputs. -/
theorem claim_C9_dedupe_set_semantics_witness :
    ("a" ∈ dedupeSlugs [" a", "b "] ↔ "a" ∈ dedupeSlugs ["b ", " a"]) :=
  claim_C9_dedupe_set_semantics.2.1 [" a", "b "] ["b ", " a"] (by decide) "a"

/-! ## Handler-level claims -/

/-- C7 (counterexample): a `GET` request with a missing username is answered
with 405, not 400 — the method check precedes the username check. -/
theorem claim_C7_username_cex :
    handler ⟨"GET", some ⟨none, none, none⟩⟩ (.ok []) (.ok []) (.ok []) =
      ⟨405, .errorObj "Only POST allowed" none⟩
    ∧ (handler ⟨"GET", some ⟨none, none, none⟩⟩ (.ok []) (.ok []) (.ok [])).status ≠ 400 := by
  constructor
  · rfl
  · intro h
    simp [handler] at h

/-- C7 (amended): an OPTIONS request always receives 200; any other
non-POST method receives 405; a POST request whose body has a missing or
empty username receives 400. -/
theorem claim_C7_username_amended (req : Request)
    (recentResult : Except String (List Submission))
    (gqlResult pubResult : Except String (List String)) :
    (req.method = "OPTIONS" →
      handler req recentResult gqlResult pubResult = ⟨200, .empty⟩)
    ∧ (req.method ≠ "OPTIONS" → req.method ≠ "POST" →
        handler req recentResult gqlResult pubResult =
          ⟨405, .errorObj "Only POST allowed" none⟩)
    ∧ (req.method = "POST" →
        ((req.body.getD ⟨none, none, none⟩).username = none ∨
          (req.body.getD ⟨none, none, none⟩).username = some "") →
        handler req recentResult gqlResult pubResult =
          ⟨400, .errorObj "Username is required" none⟩) := by
  refine ⟨fun hm => ?_, fun hm hp => ?_, fun hm hu => ?_⟩
  · simp [handler, hm]
  · simp [handler, hm, hp]
  · have hno : ¬ req.method = "OPTIONS" := by rw [hm]; decide
    rcases hu with hu | hu
    · simp [handler, hm, hno, hu]
    · simp [handler, hm, hno, hu, jsTrim, trimChars]

/-- Witness for C7 (amended) at three concrete requests. -/
theorem claim_C7_username_amended_witness :
    handler ⟨"OPTIONS", none⟩ (.ok []) (.ok []) (.ok []) = ⟨200, .empty⟩
    ∧ handler ⟨"DELETE", none⟩ (.ok []) (.ok []) (.ok []) =
        ⟨405, .errorObj "Only POST allowed" none⟩
    ∧ handler ⟨"POST", some ⟨some "", none, none⟩⟩ (.ok []) (.ok []) (.ok []) =
        ⟨400, .errorObj "Username is required" none⟩ :=
  ⟨(claim_C7_username_amended ⟨"OPTIONS", none⟩ (.ok []) (.ok []) (.ok [])).1 rfl,
   (claim_C7_username_amended ⟨"DELETE", none⟩ (.ok []) (.ok []) (.ok [])).2.1
     (by decide) (by decide),
   (claim_C7_username_amended ⟨"POST", some ⟨some "", none, none⟩⟩
     (.ok []) (.ok []) (.ok [])).2.2 rfl (Or.inr rfl)⟩

/-- C2 (counterexample): a POST whose body carries the non-empty username
`" "` (a single space) and no `responseFormat`/`includeFullHistory` is
answered with 400, not with a 200 bare array: the handler rejects usernames
that are empty after trimming. -/
theorem claim_C2_legacy_cex :
    handler ⟨"POST", some ⟨some " ", none, none⟩⟩ (.ok []) (.ok []) (.ok []) =
      ⟨400, .errorObj "Username is required" none⟩
    ∧ (" " : String) ≠ ""
    ∧ ∀ items, (handler ⟨"POST", some ⟨some " ", none, none⟩⟩
        (.ok []) (.ok []) (.ok [])).body ≠ .legacyArray items := by
  refine ⟨rfl, by decide, fun items h => ?_⟩
  rw [show handler ⟨"POST", some ⟨some " ", none, none⟩⟩ (.ok []) (.ok []) (.ok []) =
      ⟨400, .errorObj "Username is required" none⟩ from rfl] at h
  simp at h

/-- C2 (amended): for every POST request whose body has a username that is
non-empty after trimming and supplies neither `responseFormat` nor
`includeFullHistory`, if the recent-submissions fetch succeeds the handler
returns 200 with the bare `recentSolved` array, never a `source`-keyed
object. -/
theorem claim_C2_legacy_amended (req : Request) (b : RequestBody) (u : String)
    (recentSolved : List Submission)
    (gqlResult pubResult : Except String (List String))
    (hm : req.method = "POST") (hb : req.body = some b) (hu : b.username = some u)
    (hut : jsTrim u ≠ "") (hrf : b.responseFormat = none)
    (hif : b.includeFullHistory = none) :
    handler req (.ok recentSolved) gqlResult pubResult =
      ⟨200, .legacyArray recentSolved⟩
    ∧ ∀ src rs all cr ca,
        (handler req (.ok recentSolved) gqlResult pubResult).body ≠
          .v2Object src rs all cr ca := by
  have hno : ¬ req.method = "OPTIONS" := by rw [hm]; decide
  have hwv : ¬ wantsV2 b := by
    rw [wantsV2, hrf, hif]
    simp
  have hmain : handler req (.ok recentSolved) gqlResult pubResult =
      ⟨200, .legacyArray recentSolved⟩ := by
    simp [handler, hm, hno, hb, hu, hut, hwv]
  refine ⟨hmain, fun src rs all cr ca h => ?_⟩
  rw [hmain] at h
  simp at h

/-- Witness for C2 (amended) at a concrete request. -/
theorem claim_C2_legacy_amended_witness :
    handler ⟨"POST", some ⟨some "alice", none, none⟩⟩
        (.ok [⟨"Two Sum", "two-sum", 3⟩]) (.ok ["x"]) (.ok []) =
      ⟨200, .legacyArray [⟨"Two Sum", "two-sum", 3⟩]⟩ :=
  (claim_C2_legacy_amended ⟨"POST", some ⟨some "alice", none, none⟩⟩
    ⟨some "alice", none, none⟩ "alice" [⟨"Two Sum", "two-sum", 3⟩]
    (.ok ["x"]) (.ok []) rfl rfl rfl (by decide) rfl rfl).1

/-- C6: every v2-mode request (`responseFormat: "v2"`) whose mandatory
recent fetch succeeds is answered 200 with a `v2Object` carrying exactly
`source`, `recentSolved`, `allSolvedSlugs` and the two counts, and the
counts equal the lengths of the returned lists — whatever the outcomes of
the two optional full-history fetches. -/
theorem claim_C6_v2_shape (req : Request) (b : RequestBody) (u : String)
    (recentSolved : List Submission)
    (gqlResult pubResult : Except String (List String))
    (hm : req.method = "POST") (hb : req.body = some b) (hu : b.username = some u)
    (hut : jsTrim u ≠ "") (hrf : b.responseFormat = some "v2") :
    ∃ src allSlugs,
      handler req (.ok recentSolved) gqlResult pubResult =
        ⟨200, .v2Object src recentSolved allSlugs
          recentSolved.length allSlugs.length⟩ := by
  have hno : ¬ req.method = "OPTIONS" := by rw [hm]; decide
  have hwv : wantsV2 b := Or.inl hrf
  refine ⟨(fallbackSlugs recentSolved gqlResult pubResult).1,
    (fallbackSlugs recentSolved gqlResult pubResult).2, ?_⟩
  simp [handler, hm, hno, hb, hu, hut, hwv]

/-- Witness for C6 at a concrete request. -/
theorem claim_C6_v2_shape_witness :
    ∃ src allSlugs,
      handler ⟨"POST", some ⟨some "alice", some "v2", none⟩⟩
          (.ok [⟨"Two Sum", "two-sum", 3⟩]) (.error "boom") (.ok ["a", "b"]) =
        ⟨200, .v2Object src [⟨"Two Sum", "two-sum", 3⟩] allSlugs 1 allSlugs.length⟩ :=
  claim_C6_v2_shape ⟨"POST", some ⟨some "alice", some "v2", none⟩⟩
    ⟨some "alice", some "v2", none⟩ "alice" [⟨"Two Sum", "two-sum", 3⟩]
    (.error "boom") (.ok ["a", "b"]) rfl rfl rfl (by decide) rfl

/-- C1: in v2 mode (with a valid POST and a successful recent fetch), if the
GraphQL full-history fetch throws then the public REST result decides the
response (it is attempted); if the REST fetch throws or returns an empty
list, `allSolvedSlugs` is the deduplication of the `recentSolved` slugs and
`source` is `"recent"`; and no outcome of the two optional fetches ever
makes the response a failure — the status is always 200. -/
theorem claim_C1_fallback_chain (req : Request) (b : RequestBody) (u : String)
    (recentSolved : List Submission) (eg : String)
    (pubResult : Except String (List String))
    (hm : req.method = "POST") (hb : req.body = some b) (hu : b.username = some u)
    (hut : jsTrim u ≠ "") (hv2 : wantsV2 b)
    (hpub : (∃ ep, pubResult = .error ep) ∨ pubResult = .ok []) :
    handler req (.ok recentSolved) (.error eg) pubResult =
      ⟨200, .v2Object "recent" recentSolved
        (dedupeSlugs (recentSolved.map (fun s => s.titleSlug)))
        recentSolved.length
        (dedupeSlugs (recentSolved.map (fun s => s.titleSlug))).length⟩
    ∧ (∀ l, l ≠ [] →
        handler req (.ok recentSolved) (.error eg) (.ok l) =
          ⟨200, .v2Object "full" recentSolved l recentSolved.length l.length⟩)
    ∧ (∀ gqlR pubR : Except String (List String),
        (handler req (.ok recentSolved) gqlR pubR).status = 200) := by
  have hno : ¬ req.method = "OPTIONS" := by rw [hm]; decide
  have hfall : ∀ pr : Except String (List String),
      ((∃ ep, pr = .error ep) ∨ pr = .ok []) →
      fallbackSlugs recentSolved (.error eg) pr =
        ("recent", dedupeSlugs (recentSolved.map (fun s => s.titleSlug))) := by
    rintro pr (⟨ep, rfl⟩ | rfl) <;> simp [fallbackSlugs, caughtList]
  refine ⟨?_, fun l hl => ?_, fun gqlR pubR => ?_⟩
  · simp [handler, hm, hno, hb, hu, hut, hv2, hfall pubResult hpub]
  · have : fallbackSlugs recentSolved (.error eg) (.ok l) = ("full", l) := by
      simp [fallbackSlugs, caughtList, hl]
    simp [handler, hm, hno, hb, hu, hut, hv2, this]
  · by_cases hwv : wantsV2 b <;>
      simp [handler, hm, hno, hb, hu, hut, hwv]

/-- Witness for C1 at a concrete request whose optional fetches both fail. -/
theorem claim_C1_fallback_chain_witness :
    handler ⟨"POST", some ⟨some "alice", some "v2", none⟩⟩
        (.ok [⟨"Two Sum", "two-sum", 3⟩]) (.error "gql down") (.error "rest down") =
      ⟨200, .v2Object "recent" [⟨"Two Sum", "two-sum", 3⟩] ["two-sum"] 1 1⟩ := by
  have h := (claim_C1_fallback_chain ⟨"POST", some ⟨some "alice", some "v2", none⟩⟩
    ⟨some "alice", some "v2", none⟩ "alice" [⟨"Two Sum", "two-sum", 3⟩]
    "gql down" (.error "rest down") rfl rfl rfl (by decide) (Or.inl rfl)
    (Or.inl ⟨"rest down", rfl⟩)).1
  rw [h]
  rfl

/-! ## `graphqlRequest` claims -/

/-- C8 (counterexample): a 2xx response whose body is the empty string — not
valid JSON, `JSON.parse("")` throws — does not make the helper fail: the
empty body is replaced by `{}` before parsing, so the helper returns the
empty data object. -/
theorem claim_C8_graphql_cex :
    graphqlRequest (α := Unit) (fun _ => none) ⟨true, 200, ""⟩ = .ok none
    ∧ (fun _ => none : String → Option (GqlBody Unit)) "" = none
    ∧ (⟨true, 200, ""⟩ : RawResponse).ok = true :=
  ⟨rfl, rfl, rfl⟩

/-- C8 (amended): the helper fails exactly when the response status is
non-2xx, or the body is non-empty and not valid JSON, or the (empty-body
defaulted) parsed body has a non-empty `errors` array; otherwise it returns
the `data` field (`none` models the `{}` default for an absent `data`). -/
theorem claim_C8_graphql_amended {α : Type} (parse : String → Option (GqlBody α))
    (resp : RawResponse) :
    ((∃ e, graphqlRequest parse resp = .error e) ↔
      (resp.ok = false ∨ effJson parse resp = none ∨
        ∃ j er rest, effJson parse resp = some j ∧ j.errors = some (er :: rest)))
    ∧ (∀ j : GqlBody α, effJson parse resp = some j → resp.ok = true →
        (∀ er rest, j.errors ≠ some (er :: rest)) →
        graphqlRequest parse resp = .ok j.data) := by
  constructor
  · by_cases hraw : resp.raw = ""
    · by_cases hok : resp.ok = false
      · simp [graphqlRequest, effJson, hraw, hok]
      · simp [graphqlRequest, effJson, hraw, hok]
    · cases hp : parse resp.raw with
      | none => simp [graphqlRequest, effJson, hraw, hp]
      | some j =>
        by_cases hok : resp.ok = false
        · simp [graphqlRequest, effJson, hraw, hp, hok]
        · cases hje : j.errors with
          | none => simp [graphqlRequest, effJson, hraw, hp, hok, hje]
          | some es =>
            cases es with
            | nil => simp [graphqlRequest, effJson, hraw, hp, hok, hje]
            | cons er rest => simp [graphqlRequest, effJson, hraw, hp, hok, hje]
  · intro j hj hok hne
    by_cases hraw : resp.raw = ""
    · rw [effJson, if_pos hraw] at hj
      have hjval : j = ⟨none, none⟩ := (Option.some_inj.mp hj).symm
      subst hjval
      simp [graphqlRequest, hraw, hok]
    · rw [effJson, if_neg hraw] at hj
      cases hjerr : j.errors with
      | none => simp [graphqlRequest, hraw, hj, hok, hjerr]
      | some es =>
        cases es with
        | nil => simp [graphqlRequest, hraw, hj, hok, hjerr]
        | cons er rest => exact absurd hjerr (hne er rest)

/-- Witness for C8 (amended): a well-formed 200 response with an empty
`errors`-free body yields its `data` field. -/
theorem claim_C8_graphql_amended_witness :
    graphqlRequest (fun s => if s = "X" then some ⟨none, some 7⟩ else none)
        ⟨true, 200, "X"⟩ = Except.ok (some (7 : Nat)) :=
  (claim_C8_graphql_amended (fun s => if s = "X" then some ⟨none, some 7⟩ else none)
    ⟨true, 200, "X"⟩).2 ⟨none, some 7⟩ rfl rfl (fun er rest h => by simp at h)

/-! ## Pagination-loop lemmas -/

theorem gqlGo_zero (u : Nat → Nat → Except String (Option SubmissionPage))
    (off : Nat) (acc : List String) : gqlGo u 0 off acc = .ok acc :=
  rfl

theorem gqlGo_succ_page (u : Nat → Nat → Except String (Option SubmissionPage))
    (fuel off : Nat) (acc : List String) (pg : SubmissionPage)
    (hu : u off pageSize = .ok (some pg)) :
    gqlGo u (fuel + 1) off acc =
      if pg.hasNext = false ∨ pg.submissions = [] then
        .ok (gqlPageStep acc pg.submissions)
      else gqlGo u fuel (off + pageSize) (gqlPageStep acc pg.submissions) := by
  simp only [gqlGo, hu]

theorem gqlGo_all (u : Nat → Nat → Except String (Option SubmissionPage))
    (pgs : Nat → SubmissionPage)
    (h : ∀ i, u (pageSize * i) pageSize = .ok (some (pgs i)) ∧
      (pgs i).hasNext = true ∧ (pgs i).submissions ≠ []) :
    ∀ (fuel j : Nat) (acc : List String),
      gqlGo u fuel (pageSize * j) acc =
        .ok ((List.range' j fuel).foldl
          (fun a i => gqlPageStep a (pgs i).submissions) acc) := by
  intro fuel
  induction fuel with
  | zero => intro j acc; rfl
  | succ f ih =>
    intro j acc
    obtain ⟨hu, hn, hs⟩ := h j
    rw [gqlGo_succ_page u f _ acc _ hu, if_neg, ← Nat.mul_succ,
      ih (j + 1) (gqlPageStep acc (pgs j).submissions), List.range'_succ,
      List.foldl_cons]
    rintro (h1 | h2)
    · rw [hn] at h1; cases h1
    · exact hs h2

theorem gqlGo_stop (u : Nat → Nat → Except String (Option SubmissionPage))
    (pgs : Nat → SubmissionPage) (k : Nat)
    (hpg : ∀ i, i ≤ k → u (pageSize * i) pageSize = .ok (some (pgs i)))
    (hnext : ∀ i, i < k → (pgs i).hasNext = true ∧ (pgs i).submissions ≠ [])
    (hstop : (pgs k).hasNext = false ∨ (pgs k).submissions = []) :
    ∀ (fuel j : Nat) (acc : List String), j ≤ k → k - j < fuel →
      gqlGo u fuel (pageSize * j) acc =
        .ok ((List.range' j (k - j + 1)).foldl
          (fun a i => gqlPageStep a (pgs i).submissions) acc) := by
  intro fuel
  induction fuel with
  | zero => intro j acc _ hf; exact absurd hf (Nat.not_lt_zero _)
  | succ f ih =>
    intro j acc hj hf
    rw [gqlGo_succ_page u f _ acc _ (hpg j hj)]
    by_cases hjk : j = k
    · subst hjk
      rw [if_pos hstop]
      simp [Nat.sub_self, List.range'_one]
    · have hjlt : j < k := lt_of_le_of_ne hj hjk
      obtain ⟨hn, hs⟩ := hnext j hjlt
      have hsplit : (List.range' j (k - j + 1)).foldl
          (fun a i => gqlPageStep a (pgs i).submissions) acc =
          (List.range' (j + 1) (k - (j + 1) + 1)).foldl
            (fun a i => gqlPageStep a (pgs i).submissions)
            (gqlPageStep acc (pgs j).submissions) := by
        rw [show k - j + 1 = (k - (j + 1) + 1) + 1 by omega, List.range'_succ,
          List.foldl_cons]
      rw [if_neg, ← Nat.mul_succ,
        ih (j + 1) (gqlPageStep acc (pgs j).submissions) hjlt (by omega), hsplit]
      rintro (h1 | h2)
      · rw [hn] at h1; cases h1
      · exact hs h2

theorem gqlGo_congr (u u' : Nat → Nat → Except String (Option SubmissionPage))
    (h : ∀ i, u (pageSize * i) pageSize = u' (pageSize * i) pageSize) :
    ∀ (fuel j : Nat) (acc : List String),
      gqlGo u fuel (pageSize * j) acc = gqlGo u' fuel (pageSize * j) acc := by
  intro fuel
  induction fuel with
  | zero => intro j acc; rfl
  | succ f ih =>
    intro j acc
    show (match u (pageSize * j) pageSize with
      | Except.error e => (Except.error e : Except String (List String))
      | Except.ok d =>
        let subs := match d with | some p => p.submissions | none => []
        let acc' := gqlPageStep acc subs
        let hasNext := match d with | some p => p.hasNext | none => false
        if hasNext = false ∨ subs = [] then Except.ok acc'
        else gqlGo u f (pageSize * j + pageSize) acc') = _
    rw [h j]
    show _ = (match u' (pageSize * j) pageSize with
      | Except.error e => (Except.error e : Except String (List String))
      | Except.ok d =>
        let subs := match d with | some p => p.submissions | none => []
        let acc' := gqlPageStep acc subs
        let hasNext := match d with | some p => p.hasNext | none => false
        if hasNext = false ∨ subs = [] then Except.ok acc'
        else gqlGo u' f (pageSize * j + pageSize) acc')
    cases u' (pageSize * j) pageSize with
    | error e => rfl
    | ok d =>
      simp only [← Nat.mul_succ]
      split
      · rfl
      · exact ih (j + 1) _

theorem mem_gqlPageStep (subs : List GqlSubmission) :
    ∀ (acc : List String) (x : String),
      x ∈ gqlPageStep acc subs ↔
        x ∈ acc ∨ ∃ s ∈ subs, s.titleSlug ≠ "" ∧ s.statusDisplay = "Accepted" ∧
          x = jsTrim s.titleSlug := by
  induction subs with
  | nil => simp [gqlPageStep]
  | cons a t ih =>
    intro acc x
    have hstep : gqlPageStep acc (a :: t) =
        gqlPageStep
          (if a.titleSlug = "" then acc
           else if a.statusDisplay ≠ "Accepted" then acc
           else setAdd acc (jsTrim a.titleSlug)) t := by
      simp only [gqlPageStep, List.foldl_cons]
    rw [hstep, ih]
    by_cases h1 : a.titleSlug = ""
    · rw [if_pos h1]
      constructor
      · rintro (hx | ⟨s, hs, hprops⟩)
        · exact Or.inl hx
        · exact Or.inr ⟨s, List.mem_cons_of_mem a hs, hprops⟩
      · rintro (hx | ⟨s, hs, hprops⟩)
        · exact Or.inl hx
        · rcases List.mem_cons.mp hs with rfl | hs'
          · exact absurd h1 hprops.1
          · exact Or.inr ⟨s, hs', hprops⟩
    · by_cases h2 : a.statusDisplay = "Accepted"
      · rw [if_neg h1, if_neg (not_not_intro h2)]
        constructor
        · rintro (hx | ⟨s, hs, hprops⟩)
          · rcases mem_setAdd.mp hx with hx' | rfl
            · exact Or.inl hx'
            · exact Or.inr ⟨a, List.mem_cons_self a t, h1, h2, rfl⟩
          · exact Or.inr ⟨s, List.mem_cons_of_mem a hs, hprops⟩
        · rintro (hx | ⟨s, hs, hprops⟩)
          · exact Or.inl (mem_setAdd.mpr (Or.inl hx))
          · rcases List.mem_cons.mp hs with rfl | hs'
            · exact Or.inl (mem_setAdd.mpr (Or.inr hprops.2.2))
            · exact Or.inr ⟨s, hs', hprops⟩
      · rw [if_neg h1, if_pos h2]
        constructor
        · rintro (hx | ⟨s, hs, hprops⟩)
          · exact Or.inl hx
          · exact Or.inr ⟨s, List.mem_cons_of_mem a hs, hprops⟩
        · rintro (hx | ⟨s, hs, hprops⟩)
          · exact Or.inl hx
          · rcases List.mem_cons.mp hs with rfl | hs'
            · exact absurd hprops.2.1 h2
            · exact Or.inr ⟨s, hs', hprops⟩

theorem pubGo_succ_page (u : Nat → Nat → PublicResponse)
    (fuel off : Nat) (acc : List String) (pg : PublicPage)
    (hok : (u off pageSize).ok = true) (hj : (u off pageSize).json = .ok (some pg)) :
    pubGo u (fuel + 1) off acc =
      if pg.has_next = false ∨ pg.submissions_dump = [] then
        .ok (pubPageStep acc pg.submissions_dump)
      else pubGo u fuel (off + pageSize) (pubPageStep acc pg.submissions_dump) := by
  simp only [pubGo, hok, hj, Bool.true_eq_false, if_false]

theorem pubGo_all (u : Nat → Nat → PublicResponse) (pgs : Nat → PublicPage)
    (h : ∀ i, (u (pageSize * i) pageSize).ok = true ∧
      (u (pageSize * i) pageSize).json = .ok (some (pgs i)) ∧
      (pgs i).has_next = true ∧ (pgs i).submissions_dump ≠ []) :
    ∀ (fuel j : Nat) (acc : List String),
      pubGo u fuel (pageSize * j) acc =
        .ok ((List.range' j fuel).foldl
          (fun a i => pubPageStep a (pgs i).submissions_dump) acc) := by
  intro fuel
  induction fuel with
  | zero => intro j acc; rfl
  | succ f ih =>
    intro j acc
    obtain ⟨hok, hj, hn, hs⟩ := h j
    rw [pubGo_succ_page u f _ acc _ hok hj, if_neg, ← Nat.mul_succ,
      ih (j + 1) (pubPageStep acc (pgs j).submissions_dump), List.range'_succ,
      List.foldl_cons]
    rintro (h1 | h2)
    · rw [hn] at h1; cases h1
    · exact hs h2

/-- C4: when every page of an upstream reports another page and at least one
submission, each pagination loop runs exactly `maxPages = 500` iterations —
the result is the accumulation of precisely the pages at offsets
`20·0 … 20·499` — and returns `Except.ok` (no throw). -/
theorem claim_C4_pagination_cap :
    (∀ (u : Nat → Nat → Except String (Option SubmissionPage))
        (pgs : Nat → SubmissionPage),
      (∀ i, u (pageSize * i) pageSize = .ok (some (pgs i)) ∧
        (pgs i).hasNext = true ∧ (pgs i).submissions ≠ []) →
      fetchAllAcceptedSlugsFromGraphQL u =
        .ok (((List.range maxPages).foldl
          (fun a i => gqlPageStep a (pgs i).submissions) []).filter
            (fun s => s ≠ "")))
    ∧ (∀ (u : Nat → Nat → PublicResponse) (pgs : Nat → PublicPage),
        (∀ i, (u (pageSize * i) pageSize).ok = true ∧
          (u (pageSize * i) pageSize).json = .ok (some (pgs i)) ∧
          (pgs i).has_next = true ∧ (pgs i).submissions_dump ≠ []) →
        fetchAllAcceptedSlugsFromPublicApi u =
          .ok ((List.range maxPages).foldl
            (fun a i => pubPageStep a (pgs i).submissions_dump) [])) := by
  constructor
  · intro u pgs h
    have hrun := gqlGo_all u pgs h maxPages 0 []
    rw [Nat.mul_zero] at hrun
    unfold fetchAllAcceptedSlugsFromGraphQL
    rw [hrun, List.range_eq_range']
    rfl
  · intro u pgs h
    have hrun := pubGo_all u pgs h maxPages 0 []
    rw [Nat.mul_zero] at hrun
    unfold fetchAllAcceptedSlugsFromPublicApi
    rw [hrun, List.range_eq_range']

/-- A GraphQL upstream whose every page has `hasNext: true` and one
accepted submission. -/
def c4GqlUpstream : Nat → Nat → Except String (Option SubmissionPage) :=
  fun _ _ => .ok (some ⟨true, [⟨"x", "Accepted"⟩]⟩)

/-- A public REST upstream whose every page has `has_next: true` and one
accepted submission. -/
def c4PubUpstream : Nat → Nat → PublicResponse :=
  fun _ _ => ⟨true, 200, .ok (some ⟨[⟨"y", "Accepted", ""⟩], true⟩)⟩

/-- Witness for C4 at two concrete never-ending upstreams. -/
theorem claim_C4_pagination_cap_witness :
    fetchAllAcceptedSlugsFromGraphQL c4GqlUpstream =
      .ok (((List.range maxPages).foldl
        (fun a _ => gqlPageStep a [⟨"x", "Accepted"⟩]) []).filter (fun s => s ≠ ""))
    ∧ fetchAllAcceptedSlugsFromPublicApi c4PubUpstream =
        .ok ((List.range maxPages).foldl
          (fun a _ => pubPageStep a [⟨"y", "Accepted", ""⟩]) []) :=
  ⟨claim_C4_pagination_cap.1 c4GqlUpstream (fun _ => ⟨true, [⟨"x", "Accepted"⟩]⟩)
      (fun _ => ⟨rfl, rfl, by simp⟩),
   claim_C4_pagination_cap.2 c4PubUpstream (fun _ => ⟨[⟨"y", "Accepted", ""⟩], true⟩)
      (fun _ => ⟨rfl, rfl, rfl, by simp⟩)⟩

/-- C5: the GraphQL full-history fetcher pages with size 20 (its result
depends only on the upstream at offsets `20·i` with limit 20), each page
contributes exactly the trimmed slugs of its truthy-slug submissions whose
`statusDisplay` is exactly `"Accepted"`, and the loop stops at the first
page that reports no next page or carries zero submissions, returning the
accumulation of the pages up to and including it. -/
theorem claim_C5_gql_fetcher :
    pageSize = 20
    ∧ (∀ u u' : Nat → Nat → Except String (Option SubmissionPage),
        (∀ i, u (pageSize * i) pageSize = u' (pageSize * i) pageSize) →
        fetchAllAcceptedSlugsFromGraphQL u = fetchAllAcceptedSlugsFromGraphQL u')
    ∧ (∀ (acc : List String) (subs : List GqlSubmission) (x : String),
        x ∈ gqlPageStep acc subs ↔
          x ∈ acc ∨ ∃ s ∈ subs, s.titleSlug ≠ "" ∧
            s.statusDisplay = "Accepted" ∧ x = jsTrim s.titleSlug)
    ∧ (∀ (u : Nat → Nat → Except String (Option SubmissionPage))
        (pgs : Nat → SubmissionPage) (k : Nat), k < maxPages →
        (∀ i, i ≤ k → u (pageSize * i) pageSize = .ok (some (pgs i))) →
        (∀ i, i < k → (pgs i).hasNext = true ∧ (pgs i).submissions ≠ []) →
        ((pgs k).hasNext = false ∨ (pgs k).submissions = []) →
        fetchAllAcceptedSlugsFromGraphQL u =
          .ok (((List.range (k + 1)).foldl
            (fun a i => gqlPageStep a (pgs i).submissions) []).filter
              (fun s => s ≠ ""))) := by
  refine ⟨rfl, fun u u' h => ?_, fun acc subs x => mem_gqlPageStep subs acc x,
    fun u pgs k hk hpg hnext hstop => ?_⟩
  · have hrun := gqlGo_congr u u' h maxPages 0 []
    rw [Nat.mul_zero] at hrun
    unfold fetchAllAcceptedSlugsFromGraphQL
    rw [hrun]
  · have hrun := gqlGo_stop u pgs k hpg hnext hstop maxPages 0 []
      (Nat.zero_le k) (by omega)
    rw [Nat.mul_zero, Nat.sub_zero] at hrun
    unfold fetchAllAcceptedSlugsFromGraphQL
    rw [hrun, List.range_eq_range']
    rfl

/-- An upstream whose first page already reports `hasNext: false`. -/
def c5StopUpstream : Nat → Nat → Except String (Option SubmissionPage) :=
  fun _ _ => .ok (some ⟨false, [⟨" a ", "Accepted"⟩, ⟨"b", "Wrong Answer"⟩]⟩)

/-- Witness for C5: the stop-at-first-page instance, the page-size
conjunct, and a concrete page-step instance. -/
theorem claim_C5_gql_fetcher_witness :
    pageSize = 20
    ∧ fetchAllAcceptedSlugsFromGraphQL c5StopUpstream =
        .ok (((List.range 1).foldl
          (fun a _ => gqlPageStep a [⟨" a ", "Accepted"⟩, ⟨"b", "Wrong Answer"⟩]) []).filter
            (fun s => s ≠ ""))
    ∧ ("a" ∈ gqlPageStep [] [⟨" a ", "Accepted"⟩, ⟨"b", "Wrong Answer"⟩] ↔
        "a" ∈ ([] : List String) ∨
          ∃ s ∈ [(⟨" a ", "Accepted"⟩ : GqlSubmission), ⟨"b", "Wrong Answer"⟩],
            s.titleSlug ≠ "" ∧ s.statusDisplay = "Accepted" ∧ "a" = jsTrim s.titleSlug) :=
  ⟨claim_C5_gql_fetcher.1,
   claim_C5_gql_fetcher.2.2.2 c5StopUpstream
     (fun _ => ⟨false, [⟨" a ", "Accepted"⟩, ⟨"b", "Wrong Answer"⟩]⟩) 0 (by decide)
     (fun _ _ => rfl) (fun i h => absurd h (Nat.not_lt_zero i)) (Or.inl rfl),
   claim_C5_gql_fetcher.2.2.1 [] [⟨" a ", "Accepted"⟩, ⟨"b", "Wrong Answer"⟩] "a"⟩

/-! ## Map lemmas for the recent-submissions dedup loop -/

theorem mapGet_eq_none_iff {m : List (String × Submission)} {k : String} :
    mapGet m k = none ↔ ∀ p ∈ m, p.1 ≠ k := by
  unfold mapGet
  rw [Option.map_eq_none', List.find?_eq_none]
  simp

theorem mapGet_eq_some_mem {m : List (String × Submission)} {k : String}
    {v : Submission} (h : mapGet m k = some v) : (k, v) ∈ m := by
  unfold mapGet at h
  rw [Option.map_eq_some'] at h
  obtain ⟨p, hp, hv⟩ := h
  have hmem := List.mem_of_find?_eq_some hp
  have hkey : p.1 = k := by simpa using List.find?_some hp
  have : p = (k, v) := by
    rw [← hkey, ← hv]
  rwa [this] at hmem

theorem keys_nodup_unique {m : List (String × Submission)}
    (h : (m.map Prod.fst).Nodup) {k : String} {v₁ v₂ : Submission}
    (h1 : (k, v₁) ∈ m) (h2 : (k, v₂) ∈ m) : v₁ = v₂ := by
  induction m with
  | nil => cases h1
  | cons p t ih =>
    rw [List.map_cons, List.nodup_cons] at h
    rcases List.mem_cons.mp h1 with e1 | m1
    · rcases List.mem_cons.mp h2 with e2 | m2
      · exact congrArg Prod.snd (e1.trans e2.symm)
      · exfalso
        apply h.1
        rw [show p.1 = k from congrArg Prod.fst e1.symm]
        exact List.mem_map.mpr ⟨(k, v₂), m2, rfl⟩
    · rcases List.mem_cons.mp h2 with e2 | m2
      · exfalso
        apply h.1
        rw [show p.1 = k from congrArg Prod.fst e2.symm]
        exact List.mem_map.mpr ⟨(k, v₁), m1, rfl⟩
      · exact ih h.2 m1 m2

theorem mapUpsert_absent {m : List (String × Submission)} {k : String}
    (v : Submission) (h : ∀ p ∈ m, p.1 ≠ k) :
    mapUpsert m k v = m ++ [(k, v)] := by
  unfold mapUpsert
  rw [if_neg]
  intro hany
  rw [List.any_eq_true] at hany
  obtain ⟨p, hp, hpk⟩ := hany
  exact h p hp (by simpa using hpk)

theorem mapUpsert_present {m : List (String × Submission)} {k : String}
    (v : Submission) (h : ∃ p ∈ m, p.1 = k) :
    mapUpsert m k v = m.map (fun p => if p.1 = k then (k, v) else p) := by
  unfold mapUpsert
  rw [if_pos]
  rw [List.any_eq_true]
  obtain ⟨p, hp, hpk⟩ := h
  exact ⟨p, hp, by simpa using hpk⟩

/-! ## Invariant of the recent-submissions dedup loop -/

/-- An upstream item that survives the two slug guards. -/
def validRecent (it : RecentItem) : Prop :=
  it.titleSlug ≠ "" ∧ jsTrim it.titleSlug ≠ ""

/-- Invariant of the dedup map after processing the items of `l`: keys are
distinct, every entry's slug is its key, every entry is witnessed by a
processed item carrying its exact timestamp, every entry dominates the
timestamps of all processed items with its slug, and every valid processed
item has its slug in the map. -/
def RecentInv (l : List RecentItem) (m : List (String × Submission)) : Prop :=
  (m.map Prod.fst).Nodup ∧
  (∀ p ∈ m, p.2.titleSlug = p.1) ∧
  (∀ p ∈ m, ∃ it ∈ l, validRecent it ∧ jsTrim it.titleSlug = p.1 ∧
    it.timestamp = p.2.timestamp) ∧
  (∀ p ∈ m, ∀ it ∈ l, validRecent it → jsTrim it.titleSlug = p.1 →
    it.timestamp ≤ p.2.timestamp) ∧
  (∀ it ∈ l, validRecent it → jsTrim it.titleSlug ∈ m.map Prod.fst)

theorem recentInv_append_invalid {l : List RecentItem}
    {m : List (String × Submission)} (x : RecentItem) (h : RecentInv l m)
    (hx : ¬ validRecent x) : RecentInv (l ++ [x]) m := by
  obtain ⟨hnd, hent, hex, hmax, hcomp⟩ := h
  refine ⟨hnd, hent, ?_, ?_, ?_⟩
  · intro p hp
    obtain ⟨it, hit, hprops⟩ := hex p hp
    exact ⟨it, List.mem_append_left _ hit, hprops⟩
  · intro p hp it hit hv htr
    rcases List.mem_append.mp hit with hit' | hit'
    · exact hmax p hp it hit' hv htr
    · rw [List.mem_singleton] at hit'
      subst hit'
      exact absurd hv hx
  · intro it hit hv
    rcases List.mem_append.mp hit with hit' | hit'
    · exact hcomp it hit' hv
    · rw [List.mem_singleton] at hit'
      subst hit'
      exact absurd hv hx

theorem recentStep_inv {l : List RecentItem} {m : List (String × Submission)}
    (x : RecentItem) (h : RecentInv l m) :
    RecentInv (l ++ [x]) (recentStep m x) := by
  by_cases h1 : x.titleSlug = ""
  · rw [recentStep, if_pos h1]
    exact recentInv_append_invalid x h (fun hv => hv.1 h1)
  · by_cases h2 : jsTrim x.titleSlug = ""
    · rw [recentStep, if_neg h1, if_pos h2]
      exact recentInv_append_invalid x h (fun hv => hv.2 h2)
    · rw [recentStep, if_neg h1, if_neg h2]
      have hvx : validRecent x := ⟨h1, h2⟩
      cases hget : mapGet m (jsTrim x.titleSlug) with
      | none =>
        have habs : ∀ p ∈ m, p.1 ≠ jsTrim x.titleSlug := mapGet_eq_none_iff.mp hget
        rw [mapUpsert_absent _ habs]
        obtain ⟨hnd, hent, hex, hmax, hcomp⟩ := h
        refine ⟨?_, ?_, ?_, ?_, ?_⟩
        · rw [List.map_append, List.nodup_append]
          refine ⟨hnd, List.nodup_singleton _, ?_⟩
          intro a ha ha'
          obtain ⟨q, hq, hqk⟩ := List.mem_map.mp ha
          rw [List.map_cons, List.map_nil, List.mem_singleton] at ha'
          exact habs q hq (hqk.trans ha')
        · intro p hp
          rcases List.mem_append.mp hp with hp' | hp'
          · exact hent p hp'
          · rw [List.mem_singleton] at hp'
            subst hp'
            rfl
        · intro p hp
          rcases List.mem_append.mp hp with hp' | hp'
          · obtain ⟨it, hit, hprops⟩ := hex p hp'
            exact ⟨it, List.mem_append_left _ hit, hprops⟩
          · rw [List.mem_singleton] at hp'
            subst hp'
            exact ⟨x, List.mem_append_right _ (List.mem_singleton_self x), hvx, rfl, rfl⟩
        · intro p hp it hit hv htr
          rcases List.mem_append.mp hp with hp' | hp'
          · rcases List.mem_append.mp hit with hit' | hit'
            · exact hmax p hp' it hit' hv htr
            · rw [List.mem_singleton] at hit'
              subst hit'
              exact absurd htr.symm (habs p hp')
          · rw [List.mem_singleton] at hp'
            subst hp'
            rcases List.mem_append.mp hit with hit' | hit'
            · exfalso
              have hkey := hcomp it hit' hv
              rw [htr] at hkey
              obtain ⟨q, hq, hqk⟩ := List.mem_map.mp hkey
              exact habs q hq hqk
            · rw [List.mem_singleton] at hit'
              subst hit'
              exact le_refl _
        · intro it hit hv
          rw [List.map_append]
          rcases List.mem_append.mp hit with hit' | hit'
          · exact List.mem_append_left _ (hcomp it hit' hv)
          · rw [List.mem_singleton] at hit'
            subst hit'
            refine List.mem_append_right _ ?_
            rw [List.map_cons, List.map_nil, List.mem_singleton]
      | some ex =>
        have hmem_ex : (jsTrim x.titleSlug, ex) ∈ m := mapGet_eq_some_mem hget
        show RecentInv (l ++ [x])
          (if ex.timestamp < x.timestamp then
            mapUpsert m (jsTrim x.titleSlug) (mkRecentSub x) else m)
        by_cases hts : ex.timestamp < x.timestamp
        · rw [if_pos hts, mapUpsert_present _ ⟨(jsTrim x.titleSlug, ex), hmem_ex, rfl⟩]
          obtain ⟨hnd, hent, hex, hmax, hcomp⟩ := h
          have hkeys : (m.map (fun p =>
              if p.1 = jsTrim x.titleSlug then (jsTrim x.titleSlug, mkRecentSub x)
              else p)).map Prod.fst = m.map Prod.fst := by
            rw [List.map_map]
            apply List.map_congr_left
            intro p hp
            by_cases hpk : p.1 = jsTrim x.titleSlug
            · simp [Function.comp, hpk]
            · simp [Function.comp, hpk]
          refine ⟨?_, ?_, ?_, ?_, ?_⟩
          · rw [hkeys]
            exact hnd
          · intro p' hp'
            obtain ⟨p, hp, hfp⟩ := List.mem_map.mp hp'
            by_cases hpk : p.1 = jsTrim x.titleSlug
            · rw [if_pos hpk] at hfp
              subst hfp
              rfl
            · rw [if_neg hpk] at hfp
              subst hfp
              exact hent p hp
          · intro p' hp'
            obtain ⟨p, hp, hfp⟩ := List.mem_map.mp hp'
            by_cases hpk : p.1 = jsTrim x.titleSlug
            · rw [if_pos hpk] at hfp
              subst hfp
              exact ⟨x, List.mem_append_right _ (List.mem_singleton_self x), hvx, rfl, rfl⟩
            · rw [if_neg hpk] at hfp
              subst hfp
              obtain ⟨it, hit, hprops⟩ := hex p hp
              exact ⟨it, List.mem_append_left _ hit, hprops⟩
          · intro p' hp' it hit hv htr
            obtain ⟨p, hp, hfp⟩ := List.mem_map.mp hp'
            by_cases hpk : p.1 = jsTrim x.titleSlug
            · rw [if_pos hpk] at hfp
              subst hfp
              rcases List.mem_append.mp hit with hit' | hit'
              · have hle := hmax (jsTrim x.titleSlug, ex) hmem_ex it hit' hv htr
                exact le_trans hle (le_of_lt hts)
              · rw [List.mem_singleton] at hit'
                subst hit'
                exact le_refl _
            · rw [if_neg hpk] at hfp
              subst hfp
              rcases List.mem_append.mp hit with hit' | hit'
              · exact hmax p hp it hit' hv htr
              · rw [List.mem_singleton] at hit'
                subst hit'
                exact absurd htr.symm hpk
          · intro it hit hv
            rw [hkeys]
            rcases List.mem_append.mp hit with hit' | hit'
            · exact hcomp it hit' hv
            · rw [List.mem_singleton] at hit'
              subst hit'
              exact List.mem_map.mpr ⟨(jsTrim it.titleSlug, ex), hmem_ex, rfl⟩
        · rw [if_neg hts]
          obtain ⟨hnd, hent, hex, hmax, hcomp⟩ := h
          refine ⟨hnd, hent, ?_, ?_, ?_⟩
          · intro p hp
            obtain ⟨it, hit, hprops⟩ := hex p hp
            exact ⟨it, List.mem_append_left _ hit, hprops⟩
          · intro p hp it hit hv htr
            rcases List.mem_append.mp hit with hit' | hit'
            · exact hmax p hp it hit' hv htr
            · rw [List.mem_singleton] at hit'
              subst hit'
              have hpm : (p.1, p.2) ∈ m := by simpa using hp
              rw [← htr] at hpm
              have hpe : p.2 = ex := keys_nodup_unique hnd hpm hmem_ex
              rw [hpe]
              exact not_lt.mp hts
          · intro it hit hv
            rcases List.mem_append.mp hit with hit' | hit'
            · exact hcomp it hit' hv
            · rw [List.mem_singleton] at hit'
              subst hit'
              exact List.mem_map.mpr ⟨(jsTrim it.titleSlug, ex), hmem_ex, rfl⟩

theorem recentFold_inv (l : List RecentItem) :
    RecentInv l (l.foldl recentStep []) := by
  induction l using List.reverseRecOn with
  | nil =>
    exact ⟨List.nodup_nil, fun p hp => absurd hp (List.not_mem_nil p),
      fun p hp => absurd hp (List.not_mem_nil p),
      fun p hp => absurd hp (List.not_mem_nil p),
      fun it hit => absurd hit (List.not_mem_nil it)⟩
  | append_singleton t x ih =>
    rw [List.foldl_append, List.foldl_cons, List.foldl_nil]
    exact recentStep_inv x ih

/-- C3: for every upstream recent-submissions list, the recent fetcher's
output has pairwise-distinct slugs; every output entry carries the maximal
timestamp among the valid input items with its (trimmed) slug, and is
witnessed by such an item; the output is sorted by descending timestamp;
and on the concrete input `[{a,1},{a,5},{b,2}]` the output is
`[{a,5},{b,2}]`. -/
theorem claim_C3_recent_dedupe_sort :
    (∀ l : List RecentItem,
      ((fetchRecentSubmissions l).map (fun s => s.titleSlug)).Nodup
      ∧ (∀ s ∈ fetchRecentSubmissions l,
          (∃ it ∈ l, validRecent it ∧ jsTrim it.titleSlug = s.titleSlug ∧
            it.timestamp = s.timestamp)
          ∧ ∀ it ∈ l, validRecent it → jsTrim it.titleSlug = s.titleSlug →
              it.timestamp ≤ s.timestamp)
      ∧ (fetchRecentSubmissions l).Sorted tsGE)
    ∧ fetchRecentSubmissions [⟨"a", "a", 1⟩, ⟨"a", "a", 5⟩, ⟨"b", "b", 2⟩] =
        [⟨"a", "a", 5⟩, ⟨"b", "b", 2⟩] := by
  constructor
  · intro l
    obtain ⟨hnd, hent, hex, hmax, hcomp⟩ := recentFold_inv l
    have hperm : List.Perm
        (List.insertionSort tsGE ((l.foldl recentStep []).map Prod.snd))
        ((l.foldl recentStep []).map Prod.snd) :=
      List.perm_insertionSort tsGE _
    have hmem : ∀ s : Submission,
        s ∈ fetchRecentSubmissions l ↔ s ∈ (l.foldl recentStep []).map Prod.snd := by
      intro s
      unfold fetchRecentSubmissions
      exact hperm.mem_iff
    refine ⟨?_, ?_, ?_⟩
    · have hslugs : ((l.foldl recentStep []).map Prod.snd).map (fun s => s.titleSlug) =
          (l.foldl recentStep []).map Prod.fst := by
        rw [List.map_map]
        exact List.map_congr_left (fun p hp => hent p hp)
      have h2 : (((l.foldl recentStep []).map Prod.snd).map
          (fun s => s.titleSlug)).Nodup := by
        rw [hslugs]
        exact hnd
      unfold fetchRecentSubmissions
      exact ((hperm.map (fun s => s.titleSlug)).nodup_iff).mpr h2
    · intro s hs
      obtain ⟨p, hp, hps⟩ := List.mem_map.mp ((hmem s).mp hs)
      subst hps
      constructor
      · obtain ⟨it, hit, hv, htr, hts⟩ := hex p hp
        exact ⟨it, hit, hv, htr.trans (hent p hp).symm, hts⟩
      · intro it hit hv htr
        exact hmax p hp it hit hv (htr.trans (hent p hp))
    · unfold fetchRecentSubmissions
      exact List.sorted_insertionSort tsGE _
  · decide

/-! ## Slug-set invariants of the three `allSolvedSlugs` sources -/

/-- The invariant C10 asserts of `allSolvedSlugs`: pairwise-distinct
entries, none empty, none with leading or trailing whitespace. -/
def slugListOk (l : List String) : Prop :=
  l.Nodup ∧ ∀ s ∈ l, s ≠ "" ∧ jsTrim s = s

theorem nodup_gqlPageStep (subs : List GqlSubmission) :
    ∀ acc : List String, acc.Nodup → (gqlPageStep acc subs).Nodup := by
  induction subs with
  | nil => intro acc h; simpa [gqlPageStep] using h
  | cons a t ih =>
    intro acc h
    have hstep : gqlPageStep acc (a :: t) =
        gqlPageStep
          (if a.titleSlug = "" then acc
           else if a.statusDisplay ≠ "Accepted" then acc
           else setAdd acc (jsTrim a.titleSlug)) t := by
      simp only [gqlPageStep, List.foldl_cons]
    rw [hstep]
    apply ih
    by_cases h1 : a.titleSlug = ""
    · rwa [if_pos h1]
    · rw [if_neg h1]
      by_cases h2 : a.statusDisplay = "Accepted"
      · rw [if_neg (not_not_intro h2)]
        exact nodup_setAdd _ h
      · rwa [if_pos h2]

theorem trimfix_gqlPageStep (subs : List GqlSubmission) (acc : List String)
    (hacc : ∀ x ∈ acc, jsTrim x = x) :
    ∀ x ∈ gqlPageStep acc subs, jsTrim x = x := by
  intro x hx
  rcases (mem_gqlPageStep subs acc x).mp hx with h | ⟨s, _, _, _, rfl⟩
  · exact hacc x h
  · exact jsTrim_idem _

theorem gqlGo_ok_inv (u : Nat → Nat → Except String (Option SubmissionPage)) :
    ∀ (fuel off : Nat) (acc : List String), acc.Nodup →
      (∀ x ∈ acc, jsTrim x = x) → ∀ l,
      gqlGo u fuel off acc = .ok l → l.Nodup ∧ ∀ x ∈ l, jsTrim x = x := by
  intro fuel
  induction fuel with
  | zero =>
    intro off acc h1 h2 l hl
    rw [gqlGo_zero] at hl
    injection hl with hl
    subst hl
    exact ⟨h1, h2⟩
  | succ f ih =>
    intro off acc h1 h2 l hl
    unfold gqlGo at hl
    cases hu : u off pageSize with
    | error e =>
      rw [hu] at hl
      cases hl
    | ok d =>
      rw [hu] at hl
      simp only at hl
      split at hl
      · injection hl with hl
        subst hl
        exact ⟨nodup_gqlPageStep _ _ h1, trimfix_gqlPageStep _ _ h2⟩
      · exact ih _ _ (nodup_gqlPageStep _ _ h1) (trimfix_gqlPageStep _ _ h2) l hl

theorem fetchGql_ok_inv {u : Nat → Nat → Except String (Option SubmissionPage)}
    {l : List String} (h : fetchAllAcceptedSlugsFromGraphQL u = .ok l) :
    slugListOk l := by
  unfold fetchAllAcceptedSlugsFromGraphQL at h
  cases hrun : gqlGo u maxPages 0 [] with
  | error e =>
    rw [hrun] at h
    cases h
  | ok l₀ =>
    rw [hrun] at h
    simp only [Except.map] at h
    injection h with h
    obtain ⟨hnd, htf⟩ := gqlGo_ok_inv u maxPages 0 [] List.nodup_nil
      (fun x hx => absurd hx (List.not_mem_nil x)) l₀ hrun
    subst h
    refine ⟨hnd.filter _, ?_⟩
    intro s hs
    rw [List.mem_filter] at hs
    exact ⟨by simpa using hs.2, htf s hs.1⟩

theorem pubPageStep_src (subs : List PublicSubmission) :
    ∀ (acc : List String) (x : String), x ∈ pubPageStep acc subs →
      x ∈ acc ∨ (x ≠ "" ∧ jsTrim x = x) := by
  induction subs with
  | nil => intro acc x h; exact Or.inl (by simpa [pubPageStep] using h)
  | cons a t ih =>
    intro acc x h
    have hstep : pubPageStep acc (a :: t) =
        pubPageStep
          (if jsTrim a.title_slug = "" then acc
           else if (if a.status_display = "" then a.statusDisplay
              else a.status_display) ≠ "Accepted" then acc
           else setAdd acc (jsTrim a.title_slug)) t := by
      simp only [pubPageStep, List.foldl_cons]
    rw [hstep] at h
    rcases ih _ x h with h' | h'
    · by_cases h1 : jsTrim a.title_slug = ""
      · rw [if_pos h1] at h'
        exact Or.inl h'
      · rw [if_neg h1] at h'
        by_cases h2 : (if a.status_display = "" then a.statusDisplay
            else a.status_display) = "Accepted"
        · rw [if_neg (not_not_intro h2)] at h'
          rcases mem_setAdd.mp h' with h'' | rfl
          · exact Or.inl h''
          · exact Or.inr ⟨h1, jsTrim_idem _⟩
        · rw [if_pos h2] at h'
          exact Or.inl h'
    · exact Or.inr h'

theorem nodup_pubPageStep (subs : List PublicSubmission) :
    ∀ acc : List String, acc.Nodup → (pubPageStep acc subs).Nodup := by
  induction subs with
  | nil => intro acc h; simpa [pubPageStep] using h
  | cons a t ih =>
    intro acc h
    have hstep : pubPageStep acc (a :: t) =
        pubPageStep
          (if jsTrim a.title_slug = "" then acc
           else if (if a.status_display = "" then a.statusDisplay
              else a.status_display) ≠ "Accepted" then acc
           else setAdd acc (jsTrim a.title_slug)) t := by
      simp only [pubPageStep, List.foldl_cons]
    rw [hstep]
    apply ih
    by_cases h1 : jsTrim a.title_slug = ""
    · rwa [if_pos h1]
    · rw [if_neg h1]
      by_cases h2 : (if a.status_display = "" then a.statusDisplay
          else a.status_display) = "Accepted"
      · rw [if_neg (not_not_intro h2)]
        exact nodup_setAdd _ h
      · rwa [if_pos h2]

theorem props_pubPageStep (subs : List PublicSubmission) (acc : List String)
    (hacc : ∀ x ∈ acc, x ≠ "" ∧ jsTrim x = x) :
    ∀ x ∈ pubPageStep acc subs, x ≠ "" ∧ jsTrim x = x :=
  fun x hx => (pubPageStep_src subs acc x hx).elim (hacc x) id

theorem pubGo_ok_inv (u : Nat → Nat → PublicResponse) :
    ∀ (fuel off : Nat) (acc : List String), acc.Nodup →
      (∀ x ∈ acc, x ≠ "" ∧ jsTrim x = x) → ∀ l,
      pubGo u fuel off acc = .ok l → slugListOk l := by
  intro fuel
  induction fuel with
  | zero =>
    intro off acc h1 h2 l hl
    injection hl with hl
    subst hl
    exact ⟨h1, h2⟩
  | succ f ih =>
    intro off acc h1 h2 l hl
    unfold pubGo at hl
    simp only at hl
    split at hl
    · cases hl
    · cases hj : (u off pageSize).json with
      | error e =>
        rw [hj] at hl
        cases hl
      | ok d =>
        rw [hj] at hl
        simp only at hl
        split at hl
        · injection hl with hl
          subst hl
          exact ⟨nodup_pubPageStep _ _ h1, props_pubPageStep _ _ h2⟩
        · exact ih _ _ (nodup_pubPageStep _ _ h1) (props_pubPageStep _ _ h2) l hl

theorem fetchPub_ok_inv {u : Nat → Nat → PublicResponse} {l : List String}
    (h : fetchAllAcceptedSlugsFromPublicApi u = .ok l) : slugListOk l :=
  pubGo_ok_inv u maxPages 0 [] List.nodup_nil
    (fun x hx => absurd hx (List.not_mem_nil x)) l h

theorem dedupeSlugs_ok (l : List String) : slugListOk (dedupeSlugs l) :=
  ⟨nodup_dedupeSlugs l, fun _ hs => dedupeSlugs_mem_props hs⟩

theorem fallbackSlugs_ok (rs : List Submission)
    {g p : Except String (List String)}
    (hg : ∀ l, g = .ok l → slugListOk l) (hp : ∀ l, p = .ok l → slugListOk l) :
    slugListOk (fallbackSlugs rs g p).2 := by
  rw [fallbackSlugs]
  by_cases h1 : caughtList g ≠ []
  · rw [if_pos h1]
    cases hgr : g with
    | error e =>
      rw [hgr] at h1
      exact absurd rfl h1
    | ok l =>
      exact hg l hgr
  · rw [if_neg h1]
    by_cases h2 : caughtList p ≠ []
    · rw [if_pos h2]
      cases hpr : p with
      | error e =>
        rw [hpr] at h2
        exact absurd rfl h2
      | ok l =>
        exact hp l hpr
    · rw [if_neg h2]
      exact dedupeSlugs_ok _

/-- C10: whenever the handler produces a successful v2 response from the
real fetchers (over any upstream page functions), every element of
`allSolvedSlugs` is non-empty and free of leading/trailing whitespace, and
the elements are pairwise distinct — whichever fallback source produced
them. -/
theorem claim_C10_allSolved_invariant (req : Request)
    (recentSolved rs : List Submission)
    (gqlU : Nat → Nat → Except String (Option SubmissionPage))
    (pubU : Nat → Nat → PublicResponse)
    (src : String) (allSlugs : List String) (cr ca : Nat)
    (h : handler req (.ok recentSolved) (fetchAllAcceptedSlugsFromGraphQL gqlU)
      (fetchAllAcceptedSlugsFromPublicApi pubU) =
        ⟨200, .v2Object src rs allSlugs cr ca⟩) :
    allSlugs.Nodup ∧ ∀ s ∈ allSlugs, s ≠ "" ∧ jsTrim s = s := by
  unfold handler at h
  by_cases h1 : req.method = "OPTIONS"
  · rw [if_pos h1] at h
    simp at h
  · rw [if_neg h1] at h
    by_cases h2 : req.method = "POST"
    · rw [if_neg (not_not_intro h2)] at h
      simp only at h
      cases hu : (req.body.getD ⟨none, none, none⟩).username with
      | none =>
        rw [hu] at h
        simp at h
      | some u =>
        rw [hu] at h
        simp only at h
        by_cases h3 : jsTrim u = ""
        · rw [if_pos h3] at h
          simp at h
        · rw [if_neg h3] at h
          by_cases h4 : wantsV2 (req.body.getD ⟨none, none, none⟩)
          · rw [if_pos h4] at h
            have hbody := congrArg Response.body h
            simp only [ResponseBody.v2Object.injEq] at hbody
            have hall := hbody.2.2.1
            rw [← hall]
            exact fallbackSlugs_ok recentSolved
              (fun l hl => fetchGql_ok_inv hl) (fun l hl => fetchPub_ok_inv hl)
          · rw [if_neg h4] at h
            simp at h
    · rw [if_pos h2] at h
      simp at h

/-- A v2 request used to witness C10. -/
def c10Req : Request := ⟨"POST", some ⟨some "alice", some "v2", none⟩⟩

/-- A GraphQL upstream that always throws. -/
def c10GqlUpstream : Nat → Nat → Except String (Option SubmissionPage) :=
  fun _ _ => .error "gql down"

/-- A public REST upstream that always answers 403. -/
def c10PubUpstream : Nat → Nat → PublicResponse :=
  fun _ _ => ⟨false, 403, .ok none⟩

/-- Witness for C10 at a concrete request with failing full-history
upstreams: the fallback list (here empty) satisfies the invariant. -/
theorem claim_C10_allSolved_invariant_witness :
    handler c10Req (.ok []) (fetchAllAcceptedSlugsFromGraphQL c10GqlUpstream)
        (fetchAllAcceptedSlugsFromPublicApi c10PubUpstream) =
      ⟨200, .v2Object "recent" [] [] 0 0⟩
    ∧ (([] : List String).Nodup ∧ ∀ s ∈ ([] : List String), s ≠ "" ∧ jsTrim s = s) :=
  ⟨rfl,
   claim_C10_allSolved_invariant c10Req [] [] c10GqlUpstream c10PubUpstream
     "recent" [] 0 0 rfl⟩

end LCAssistant
